import Mathlib

/-!
Verification development for the fraud-detection dashboard service
(`src/app.py`): the duplicate-record grouper (`load_duplicates`), the
seller credit-note ratio loader (`load_crn_ratios`), and the two
DataTables-style query endpoints (`api_duplicates`, `api_crn_ratio`).

Python strings are modelled as Lean `String`, with the operations the code
uses (`.strip()`, `.lower()`, `in`, slicing, tuple comparison) re-implemented
structurally over `List Char` so that every definition evaluates by kernel
reduction.  Python `float` values are modelled as `Rat`; the numeric parser
`float(...)` (a Python builtin, external plumbing for this service) is a
parameter `pn : String → Option Rat`, `none` meaning the parse raises.
-/

namespace App

/-- Python's `str.strip()` whitespace set (ASCII whitespace). -/
def pyWs (c : Char) : Bool :=
  c == ' ' || c == '\t' || c == '\n' || c == '\r' || c == '\x0b' || c == '\x0c'

/-- Python `s.strip()`: drop leading and trailing whitespace. -/
def pyStrip (s : String) : String :=
  ⟨((s.data.dropWhile pyWs).reverse.dropWhile pyWs).reverse⟩

/-- Python `s.lower()` (ASCII case folding, which covers the data served). -/
def pyLower (s : String) : String := ⟨s.data.map Char.toLower⟩

/-- `prefB n h`: `n` is a prefix of `h` (on character lists). -/
def prefB : List Char → List Char → Bool
  | [], _ => true
  | _ :: _, [] => false
  | a :: as, b :: bs => a == b && prefB as bs

/-- `infB n h`: `n` occurs as a contiguous substring of `h`. -/
def infB (n : List Char) : List Char → Bool
  | [] => prefB n []
  | c :: cs => prefB n (c :: cs) || infB n cs

/-- Python `needle in hay` on strings: contiguous substring test. -/
def pyIn (needle hay : String) : Bool := infB needle.data hay.data

/-- Effective index of a Python slice bound: negative indices count from the
end, and everything is clamped to `[0, n]`. -/
def pyIdx (n : Nat) (i : Int) : Nat :=
  if i < 0 then ((n : Int) + i).toNat else min i.toNat n

/-- Python `l[a:b]` (step 1): the elements between the clamped bounds. -/
def pySlice (a b : Int) (l : List α) : List α :=
  (l.drop (pyIdx l.length a)).take (pyIdx l.length b - pyIdx l.length a)

/-- Python `row.get(k)` on an ordered dict rendered as an association list:
the value at the first occurrence of key `k`, if any. -/
def getV (r : List (String × String)) (k : String) : Option String :=
  (r.find? (fun p => p.1 == k)).map (fun p => p.2)

/-- Insert `x` into `l` before the first element `y` with `le x y`.
Building block of the stable sort. -/
def insB (le : α → α → Bool) (x : α) : List α → List α
  | [] => [x]
  | y :: ys => if le x y then x :: y :: ys else y :: insB le x ys

/-- Stable insertion sort: extensionally equal to Python's stable `sorted`
for any total preorder `le` (`le x y` = "x may be placed before y"; on ties
`le` must hold both ways, so earlier elements stay first). -/
def isortB (le : α → α → Bool) : List α → List α
  | [] => []
  | x :: xs => insB le x (isortB le xs)

theorem insB_perm (le : α → α → Bool) (x : α) (l : List α) :
    (insB le x l).Perm (x :: l) := by
  induction l with
  | nil => simp [insB]
  | cons y ys ih =>
      by_cases h : le x y = true
      · simp [insB, h]
      · simp only [insB, h, if_neg]
        exact ((ih.cons y).trans (List.Perm.swap x y ys)).symm.symm

theorem isortB_perm (le : α → α → Bool) (l : List α) :
    (isortB le l).Perm l := by
  induction l with
  | nil => simp [isortB]
  | cons x xs ih => exact (insB_perm le x (isortB le xs)).trans (ih.cons x)

theorem mem_insB {le : α → α → Bool} {x z : α} {l : List α} :
    z ∈ insB le x l ↔ z = x ∨ z ∈ l := by
  have := (insB_perm le x l).mem_iff (a := z)
  simpa using this

theorem insB_sorted (le : α → α → Bool)
    (htot : ∀ a b, le a b = true ∨ le b a = true)
    (htr : ∀ a b c, le a b = true → le b c = true → le a c = true)
    (x : α) (l : List α) (h : l.Pairwise (fun a b => le a b = true)) :
    (insB le x l).Pairwise (fun a b => le a b = true) := by
  induction l with
  | nil => simp [insB]
  | cons y ys ih =>
      by_cases hxy : le x y = true
      · have e : insB le x (y :: ys) = x :: y :: ys := by simp [insB, hxy]
        rw [e]
        refine List.Pairwise.cons ?_ h
        intro z hz
        rcases List.mem_cons.mp hz with rfl | hz
        · exact hxy
        · exact htr x y z hxy ((List.pairwise_cons.mp h).1 z hz)
      · have hyx : le y x = true := (htot x y).resolve_left hxy
        have e : insB le x (y :: ys) = y :: insB le x ys := by simp [insB, hxy]
        rw [e]
        refine List.Pairwise.cons ?_ (ih (List.pairwise_cons.mp h).2)
        intro z hz
        rcases mem_insB.mp hz with rfl | hz
        · exact hyx
        · exact (List.pairwise_cons.mp h).1 z hz

theorem isortB_sorted (le : α → α → Bool)
    (htot : ∀ a b, le a b = true ∨ le b a = true)
    (htr : ∀ a b c, le a b = true → le b c = true → le a c = true)
    (l : List α) :
    (isortB le l).Pairwise (fun a b => le a b = true) := by
  induction l with
  | nil => simp [isortB]
  | cons x xs ih => exact insB_sorted le htot htr x (isortB le xs) ih

theorem insB_filter (le : α → α → Bool) (P : α → Bool)
    (hP : ∀ a b, P a = true → P b = true → le a b = true)
    (x : α) (l : List α) :
    (insB le x l).filter P = (x :: l).filter P := by
  induction l with
  | nil => simp [insB]
  | cons y ys ih =>
      by_cases hxy : le x y = true
      · simp [insB, hxy]
      · have e : insB le x (y :: ys) = y :: insB le x ys := by simp [insB, hxy]
        rw [e]
        by_cases hPx : P x = true
        · have hPy : P y = false := by
            cases hy : P y
            · rfl
            · exact absurd (hP x y hPx hy) hxy
          simp [List.filter_cons, hPy, hPx, ih]
        · have hPx' : P x = false := by cases hx : P x <;> simp_all
          simp [List.filter_cons, hPx', ih]

theorem isortB_filter (le : α → α → Bool) (P : α → Bool)
    (hP : ∀ a b, P a = true → P b = true → le a b = true)
    (l : List α) :
    (isortB le l).filter P = l.filter P := by
  induction l with
  | nil => simp [isortB]
  | cons x xs ih =>
      rw [isortB, insB_filter le P hP, List.filter_cons, ih, ← List.filter_cons]

theorem pySlice_sublist (a b : Int) (l : List α) : (pySlice a b l).Sublist l :=
  ((List.take_sublist _ _).trans (List.drop_sublist _ _))

theorem pySlice_length_le (a b : Int) (l : List α) :
    (pySlice a b l).length ≤ l.length :=
  (pySlice_sublist a b l).length_le

theorem pyIdx_nonneg (n : Nat) (i : Int) (h : 0 ≤ i) :
    pyIdx n i = min i.toNat n := by
  unfold pyIdx
  rw [if_neg (by omega)]

/-- Python `l[a : a+len]` for nonnegative `a` and `len` is drop-then-take. -/
theorem pySlice_nonneg (a len : Int) (l : List α)
    (ha : 0 ≤ a) (hlen : 0 ≤ len) :
    pySlice a (a + len) l = (l.drop a.toNat).take len.toNat := by
  unfold pySlice
  rw [pyIdx_nonneg _ _ ha, pyIdx_nonneg _ _ (by omega : (0:Int) ≤ a + len)]
  by_cases hcl : l.length ≤ a.toNat
  · have hm : min a.toNat l.length = l.length := by omega
    rw [hm, List.drop_length, List.drop_eq_nil_of_le hcl]
    simp
  · have hmin : min a.toNat l.length = a.toNat := by omega
    have htn : (a + len).toNat = a.toNat + len.toNat := by omega
    rw [hmin, htn, List.take_eq_take]
    simp only [List.length_drop]
    omega

theorem pySlice_length_le_len (a len : Int) (l : List α) (hlen : 0 ≤ len) :
    ((pySlice a (a + len) l).length : Int) ≤ len := by
  unfold pySlice pyIdx
  have h1 : (List.take (pyIdx l.length (a + len) - pyIdx l.length a)
      (l.drop (pyIdx l.length a))).length ≤ pyIdx l.length (a + len) - pyIdx l.length a := by
    simp [List.length_take]
  have h2 : pyIdx l.length (a + len) ≤ pyIdx l.length a + len.toNat := by
    unfold pyIdx
    split <;> split <;> omega
  unfold pyIdx at h1 h2
  omega

/-- A slice starting at or past the end of the list is empty. -/
theorem pySlice_empty_of_ge (a b : Int) (l : List α)
    (ha : 0 ≤ a) (hge : l.length ≤ a.toNat) :
    pySlice a b l = [] := by
  unfold pySlice
  rw [pyIdx_nonneg _ _ ha]
  have hm : min a.toNat l.length = l.length := by omega
  rw [hm, List.drop_length]
  simp

/-! ### The duplicate-record dataset (`load_duplicates`)

A CSV row from `csv.DictReader` is an ordered mapping column → value.  A
value the reader leaves as `None` (short row) and the empty string behave
identically everywhere this code touches them (`or ""`, truthiness, `v if v
else "-"`), so both are modelled as `""`. -/

/-- One CSV row: the ordered (column, value) pairs. -/
abbrev Row := List (String × String)

/-- `KEY_COLS` from `app.py`. -/
def KEY_COLS : List String :=
  ["BuyerDtls_Gstin", "SellerDtls_Gstin", "DocDtls_Dt", "DocDtls_No"]

/-- `DISPLAY_COLS_PREFERRED` from `app.py`. -/
def DISPLAY_COLS_PREFERRED : List String :=
  ["DocDtls_No", "DocDtls_Dt", "DocDtls_Typ",
   "SellerDtls_Gstin", "SellerDtls_LglNm",
   "BuyerDtls_Gstin", "BuyerDtls_LglNm",
   "TranDtls_SupTyp", "ValDtls_TotInvVal", "ValDtls_AssVal",
   "ValDtls_CgstVal", "ValDtls_SgstVal", "ValDtls_IgstVal",
   "ItemList_HsnCd", "ItemList_PrdDesc", "ItemList_Qty",
   "ItemList_UnitPrice", "ItemList_TotItemVal",
   "CustomFields_ErpSource"]

/-- The composite key: `[(row.get(k) or "").strip() for k in KEY_COLS]`. -/
abbrev Key := List String

def keyOf (r : Row) : Key := KEY_COLS.map (fun k => pyStrip ((getV r k).getD ""))

/-- Python `all(vals)`: every key component is a non-empty (truthy) string. -/
def allTruthy (k : Key) : Bool := k.all (fun s => s != "")

def validB (r : Row) : Bool := allTruthy (keyOf r)

/-- The keys of the valid rows, with multiplicity: `groups[key]` holds the
valid rows, so a key's multiplicity here is its group's member count. -/
def validKeys (rows : List Row) : List Key := (rows.filter validB).map keyOf

/-- Key order: Python compares the key tuples lexicographically, each
component by Unicode code point; that is the lexicographic order on
`List (List Char)`. -/
def kdata (k : Key) : List (List Char) := k.map String.data

def keyLeB (a b : Key) : Bool := decide (kdata a ≤ kdata b)

def keyLtB (a b : Key) : Bool := decide (kdata a < kdata b)

/-- `sorted(groups.keys())`: the distinct valid keys in ascending order. -/
def sortedKeys (rows : List Row) : List Key :=
  isortB keyLeB (validKeys rows).dedup

/-- The qualifying keys (≥ 2 member rows), in ascending order: exactly the
keys the loader's loop does not `continue` past. -/
def qualKeys (rows : List Row) : List Key :=
  (sortedKeys rows).filter (fun k => 2 ≤ (validKeys rows).count k)

/-- `groups[key]`: the valid rows with composite key `k`, in original
(first-encounter) order. -/
def membersOf (rows : List Row) (k : Key) : List Row :=
  rows.filter (fun r => validB r && keyOf r == k)

/-- A row of the cached grouped table: the CSV row plus the `_group_id` and
`_group_size` annotations the loader writes onto it. -/
structure ARow where
  row : Row
  gid : Nat
  gsize : Nat
deriving DecidableEq

/-- `(row.get("SellerDtls_Gstin") or "").strip()`. -/
def sellerOf (r : Row) : String := pyStrip ((getV r "SellerDtls_Gstin").getD "")

/-- The Python `set` of seller GSTINs, modelled as a duplicate-free list:
`if s: unique_sellers.add(s)`. -/
def pushSeller (acc : List String) (s : String) : List String :=
  if s != "" && !(acc.contains s) then acc ++ [s] else acc

/-- `float(row.get("ValDtls_TotInvVal") or 0)` guarded by `try/except`: a
missing or empty (falsy) value is `float(0) = 0`; a non-empty value is
parsed, and a parse failure (exception) is skipped, contributing `0`. -/
def parseVal (pn : String → Option Rat) (r : Row) : Rat :=
  match (getV r "ValDtls_TotInvVal").getD "" with
  | "" => 0
  | v => (pn v).getD 0

/-- The loader's loop state: emitted rows, group counter, value sum, seller
set. -/
structure DupAcc where
  dup_rows : List ARow
  group_id : Nat
  total_value : Rat
  unique_sellers : List String

/-- The body of `for idx in indices:` — append the annotated row, accumulate
the monetary total and the seller set. -/
def stepRow (pn : String → Option Rat) (gid gsize : Nat)
    (acc : DupAcc) (r : Row) : DupAcc :=
  { dup_rows := acc.dup_rows ++ [⟨r, gid, gsize⟩]
    group_id := acc.group_id
    total_value := acc.total_value + parseVal pn r
    unique_sellers := pushSeller acc.unique_sellers (sellerOf r) }

/-- The body of `for key in sorted(groups.keys()):` for a qualifying key:
process its members, then `group_id += 1`. -/
def stepGroup (pn : String → Option Rat) (rows : List Row)
    (acc : DupAcc) (k : Key) : DupAcc :=
  let members := membersOf rows k
  let acc2 := members.foldl (stepRow pn acc.group_id members.length) acc
  { acc2 with group_id := acc2.group_id + 1 }

def dupAccOf (pn : String → Option Rat) (rows : List Row) : DupAcc :=
  (qualKeys rows).foldl (stepGroup pn rows) ⟨[], 0, 0, []⟩

/-- The duplicate dataset's derived statistics (`stats` in
`load_duplicates`). -/
structure DupStats where
  total_rows : Nat
  num_groups : Nat
  total_value : Rat
  unique_sellers : Nat

/-- The successful-load path of `load_duplicates` on parsed rows: the
grouped, annotated table and its statistics. -/
def load_ok (pn : String → Option Rat) (rows : List Row) :
    List ARow × DupStats :=
  let acc := dupAccOf pn rows
  (acc.dup_rows,
   ⟨acc.dup_rows.length, acc.group_id, acc.total_value,
    acc.unique_sellers.length⟩)

/-- The state of the backing CSV file: absent, unreadable/unparsable (the
`except` path), or parsed into a header and rows. -/
inductive DupSrc
  | missing
  | malformed
  | ok (columns : List String) (rows : List Row)

/-- `load_duplicates`: missing or malformed file → empty table and `{}`
stats (modelled `none`), never an exception; otherwise group and annotate.
The display columns are the preferred columns present in the header. -/
def load_duplicates (pn : String → Option Rat) (src : DupSrc) :
    List ARow × List String × Option DupStats :=
  match src with
  | .missing => ([], [], none)
  | .malformed => ([], [], none)
  | .ok cols rows =>
      ((load_ok pn rows).1,
       DISPLAY_COLS_PREFERRED.filter (fun c => cols.contains c),
       some (load_ok pn rows).2)

/-! ### The duplicates query endpoint (`api_duplicates`) -/

/-- The request parameters of `/api/duplicates` after the `int(...)`/
`.get(...)` conversions. -/
structure DupQ where
  draw : Int
  start : Int
  length : Int
  search : String

/-- A value of the cached row dict: a CSV field (string) or one of the
integer annotations `_group_id` / `_group_size`. -/
inductive PyVal
  | s (v : String)
  | n (v : Nat)

/-- `r.values()` of a cached row: the CSV values, then `_group_id` and
`_group_size` (insertion order). -/
def dupValues (a : ARow) : List PyVal :=
  a.row.map (fun p => PyVal.s p.2) ++ [PyVal.n a.gid, PyVal.n a.gsize]

/-- Python truthiness of a dict value (`if v`). -/
def truthy : PyVal → Bool
  | .s v => v != ""
  | .n v => v != 0

/-- Python `str(v)`. -/
def pyStr : PyVal → String
  | .s v => v
  | .n v => toString v

/-- `any(search in str(v).lower() for v in r.values() if v)`. -/
def dupMatchB (s : String) (a : ARow) : Bool :=
  (dupValues a).any (fun v => truthy v && pyIn s (pyLower (pyStr v)))

/-- The filtered sequence of `/api/duplicates`. -/
def dupFiltered (q : DupQ) (rows : List ARow) : List ARow :=
  let s := pyLower (pyStrip q.search)
  if s != "" then rows.filter (dupMatchB s) else rows

/-- One response record:
`{k: (v if v else "-") for k, v in row.items() if not k.startswith("_")}`
plus the three underscore keys, which are the three non-`fields`
components of this structure. -/
structure DupOut where
  fields : List (String × String)
  group_id : Nat
  group_size : Nat
  row_num : Int
deriving DecidableEq

/-- `k.startswith("_")`. -/
def undKey (k : String) : Bool :=
  match k.data with
  | '_' :: _ => true
  | _ => false

def dashify (v : String) : String := if v == "" then "-" else v

/-- Build the response record for the page row at page position `i`. -/
def dupOut (start : Int) (i : Nat) (a : ARow) : DupOut :=
  { fields := a.row.filterMap
      (fun p => if undKey p.1 then none else some (p.1, dashify p.2))
    group_id := a.gid
    group_size := a.gsize
    row_num := start + i + 1 }

/-- The `/api/duplicates` response payload. -/
structure DupResp where
  draw : Int
  recordsTotal : Nat
  recordsFiltered : Nat
  data : List DupOut
deriving DecidableEq

/-- `/api/duplicates`: filter, slice `filtered[start:start+length]`, build
the response records.  The handler reads the cached rows and builds fresh
dicts; it performs no write to the cached table. -/
def api_duplicates (q : DupQ) (rows : List ARow) : DupResp :=
  let filtered := dupFiltered q rows
  let page := pySlice q.start (q.start + q.length) filtered
  { draw := q.draw
    recordsTotal := rows.length
    recordsFiltered := filtered.length
    data := page.enum.map (fun p => dupOut q.start p.1 p.2) }

/-- `/api/duplicates` as a state transformer on the cached table: the
handler contains no assignment to a cached row, so the table it leaves
behind is the table it was given. -/
def api_duplicates_state (q : DupQ) (rows : List ARow) :
    DupResp × List ARow :=
  (api_duplicates q rows, rows)

/-! ### The seller-ratio dataset (`load_crn_ratios`, `api_crn_ratio`)

A record of `crn_ratio.json`.  The JSON numbers (`float`s) are modelled as
`Rat`.  `rowNum` models the `_row_num` key, which is absent in the file and
is written onto the cached dict by the ratio endpoint's page loop. -/
structure RRec where
  gstin : String
  name : String
  ratioVal : Rat   -- JSON key "crn_inv_ratio"
  invCount : Rat   -- "inv_count"
  crnCount : Rat   -- "crn_count"
  dbnCount : Rat   -- "dbn_count"
  totInvVal : Rat  -- "total_inv_val"
  totCrnVal : Rat  -- "total_crn_val"
  rowNum : Option Int  -- "_row_num", absent until a request writes it
deriving DecidableEq

/-- The ratio dataset's derived statistics (`stats` in `load_crn_ratios`). -/
structure CrnStats where
  total_sellers : Nat
  high_count : Nat      -- "high_ratio": sellers with ratio > 0.5
  extreme_count : Nat   -- "extreme_ratio": sellers with ratio > 1.0
  total_crn_val : Rat
deriving DecidableEq

/-- A parsed JSON document, as `json.load` can produce it: the ratio
file's decoded content is arbitrary JSON, not necessarily the expected
list of record objects. -/
inductive JVal
  | jnull
  | jbool (b : Bool)
  | jnum (q : Rat)
  | jstr (s : String)
  | jarr (xs : List JVal)
  | jobj (fields : List (String × JVal))

/-- Dict lookup on a JSON object (`json.load` yields unique keys). -/
def jLookup (fs : List (String × JVal)) (k : String) : Option JVal :=
  (fs.find? (fun p => p.1 == k)).map (fun p => p.2)

/-- `x.get(k, 0)` used numerically (compared against a float, or summed):
`none` models the exception — `AttributeError` when `x` is not a dict,
`TypeError` when the looked-up value is not a number (Python bools count
as numbers: `True` is 1, `False` is 0). -/
def jGetNum (x : JVal) (k : String) : Option Rat :=
  match x with
  | .jobj fs =>
      match jLookup fs k with
      | none => some 0
      | some (.jnum q) => some q
      | some (.jbool b) => some (if b then 1 else 0)
      | some _ => none
  | _ => none

/-- Python iteration over the decoded document: a list yields its
elements, a string yields its characters as 1-character strings, a dict
yields its keys; any other value raises `TypeError`, modelled `none`. -/
def pyIterate : JVal → Option (List JVal)
  | .jarr xs => some xs
  | .jstr s => some (s.data.map (fun c => JVal.jstr ⟨[c]⟩))
  | .jobj fs => some (fs.map (fun p => JVal.jstr p.1))
  | _ => none

/-- Python `len(data)`: defined for lists, strings and dicts; raises
`TypeError` (modelled `none`) on numbers, booleans and `None`. -/
def pyLenJ : JVal → Option Nat
  | .jarr xs => some xs.length
  | .jstr s => some s.data.length
  | .jobj fs => some fs.length
  | _ => none

/-- The stats block of `load_crn_ratios` (`app.py` lines 114-119), which
sits OUTSIDE the `try`: `len(data)`, the two threshold counts over
`x.get("crn_inv_ratio", 0)`, and the sum of `x.get("total_crn_val", 0)`.
`none` models an uncaught exception escaping the loader (wrong-shape
document, non-dict elements, or non-numeric field values). -/
def crnStatsOf (doc : JVal) : Option CrnStats :=
  match pyLenJ doc, pyIterate doc with
  | some n, some xs =>
      match xs.mapM (fun x => jGetNum x "crn_inv_ratio"),
            xs.mapM (fun x => jGetNum x "total_crn_val") with
      | some ratios, some crnvals =>
          some ⟨n,
                (ratios.filter (fun q => decide ((1 : Rat)/2 < q))).length,
                (ratios.filter (fun q => decide ((1 : Rat) < q))).length,
                crnvals.sum⟩
      | _, _ => none
  | _, _ => none

/-- The state of `crn_ratio.json`: absent; unreadable or undecodable (the
`except` path — only `open` and `json.load` are inside the `try`); or
decoded into a JSON document `doc`. -/
inductive CrnSrc
  | missing
  | undecodable
  | ok (doc : JVal)

/-- `load_crn_ratios`: a missing or undecodable file yields the empty
Python list and `{}` stats (modelled `none`) without raising.  A decoded
document reaches the stats block, which is outside the `try`: the outer
`none` models the exception that escapes the loader whenever the document
is not a list of record objects with numeric ratio fields; otherwise the
document and its stats are returned (and cached). -/
def load_crn_ratios (src : CrnSrc) : Option (JVal × Option CrnStats) :=
  match src with
  | .missing => some (.jarr [], none)
  | .undecodable => some (.jarr [], none)
  | .ok doc =>
      match crnStatsOf doc with
      | some st => some (doc, some st)
      | none => none

/-- The sort field resolved from `order[0][column]` by `col_map.get`. -/
inductive SField
  | rownum | gstinF | nameF | ratioF | invF | crnF | dbnF | tinvF | tcrnF
deriving DecidableEq

/-- `col_map = {0: "_row_num", 2: "gstin", ...}`; `col_map.get(c,
"crn_inv_ratio")` defaults every other index to the ratio field. -/
def colMap (c : Int) : SField :=
  if c = 0 then .rownum
  else if c = 2 then .gstinF
  else if c = 3 then .nameF
  else if c = 4 then .ratioF
  else if c = 5 then .invF
  else if c = 6 then .crnF
  else if c = 7 then .dbnF
  else if c = 8 then .tinvF
  else if c = 9 then .tcrnF
  else .ratioF

/-- Ascending comparison by the sort field's value: Python `<=` on the
key values `x.get(sort_key, 0)` (strings by code point, numbers by value).
The `rownum` case is never consulted: the endpoint skips sorting for it. -/
def fLe (f : SField) (a b : RRec) : Bool :=
  match f with
  | .rownum => true
  | .gstinF => decide (a.gstin.data ≤ b.gstin.data)
  | .nameF => decide (a.name.data ≤ b.name.data)
  | .ratioF => decide (a.ratioVal ≤ b.ratioVal)
  | .invF => decide (a.invCount ≤ b.invCount)
  | .crnF => decide (a.crnCount ≤ b.crnCount)
  | .dbnF => decide (a.dbnCount ≤ b.dbnCount)
  | .tinvF => decide (a.totInvVal ≤ b.totInvVal)
  | .tcrnF => decide (a.totCrnVal ≤ b.totCrnVal)

/-- The placement relation of Python's stable `sorted(key=..., reverse=dsc)`:
`rLe f dsc a b` = "a may be placed before b". -/
def rLe (f : SField) (dsc : Bool) (a b : RRec) : Bool :=
  if dsc then fLe f b a else fLe f a b

/-- The request parameters of `/api/crn-ratio`; `orderCol`/`orderDir` are
`none` when the request supplies no order (the `.get` defaults apply). -/
structure RQ where
  draw : Int
  start : Int
  length : Int
  search : String
  orderCol : Option Int
  orderDir : Option String

/-- `search in r.get("gstin", "").lower() or search in r.get("name",
"").lower()`. -/
def rMatchB (s : String) (r : RRec) : Bool :=
  pyIn s (pyLower r.gstin) || pyIn s (pyLower r.name)

/-- The `/api/crn-ratio` response payload. -/
structure RResp where
  draw : Int
  recordsTotal : Nat
  recordsFiltered : Nat
  data : List RRec
deriving DecidableEq

/-- The cached records are distinct Python dict objects; pairing each with
its list position models object identity, so that the endpoint's in-place
`row["_row_num"] = ...` writes land on the right cached records. -/
def rFilteredI (q : RQ) (data : List RRec) : List (Nat × RRec) :=
  let s := pyLower (pyStrip q.search)
  if s != "" then data.enum.filter (fun p => rMatchB s p.2) else data.enum

/-- The filtered-then-sorted sequence: sorting is skipped when the resolved
sort key is `_row_num`, otherwise Python's stable `sorted`. -/
def rSortedI (q : RQ) (data : List RRec) : List (Nat × RRec) :=
  let sf := colMap (q.orderCol.getD 4)
  let dsc := (q.orderDir.getD "desc") == "desc"
  if sf = SField.rownum then rFilteredI q data
  else isortB (fun a b => rLe sf dsc a.2 b.2) (rFilteredI q data)

/-- The page `filtered[start:start+length]` with, for each page row, its
cache position and the `_row_num` value `start + i + 1` the loop writes. -/
def rPageI (q : RQ) (data : List RRec) : List (Nat × Int × RRec) :=
  (pySlice q.start (q.start + q.length) (rSortedI q data)).enum.map
    (fun p => (p.2.1, q.start + p.1 + 1, p.2.2))

/-- `/api/crn-ratio` as a state transformer: the response, and the cached
table after the page loop's `row["_row_num"] = start + i + 1` writes
(which mutate the cached dicts in place — `page` holds references). -/
def api_crn_ratio (q : RQ) (data : List RRec) : RResp × List RRec :=
  let page := rPageI q data
  ({ draw := q.draw
     recordsTotal := data.length
     recordsFiltered := (rFilteredI q data).length
     data := page.map (fun t => { t.2.2 with rowNum := some t.2.1 }) },
   data.enum.map (fun p =>
     match page.find? (fun t => t.1 == p.1) with
     | some t => { p.2 with rowNum := some t.2.1 }
     | none => p.2))

/-- A record with its `_row_num` annotation erased: the frame over which
ratio queries must not change the cache. -/
def stripNum (r : RRec) : RRec := { r with rowNum := none }

/-- Closed form of the loader's emission loop: the members of the key at
position `i` of `ks`, annotated with `groupId = g + i` and their count. -/
def annotate (rows : List Row) (g : Nat) : List Key → List ARow
  | [] => []
  | k :: ks =>
      (membersOf rows k).map (fun r => ⟨r, g, (membersOf rows k).length⟩)
        ++ annotate rows (g + 1) ks

/-- `sellerOf` as the loader's seller-set contribution: `none` when the
trimmed GSTIN is empty (not added to the set). -/
def sOpt (r : Row) : Option String :=
  if sellerOf r == "" then none else some (sellerOf r)

/-! ### Properties of the loader -/

theorem foldl_stepRow (pn : String → Option Rat) (g gs : Nat)
    (members : List Row) (acc : DupAcc) :
    members.foldl (stepRow pn g gs) acc =
      ⟨acc.dup_rows ++ members.map (fun r => ⟨r, g, gs⟩),
       acc.group_id,
       acc.total_value + (members.map (parseVal pn)).sum,
       members.foldl (fun l r => pushSeller l (sellerOf r)) acc.unique_sellers⟩ := by
  induction members generalizing acc with
  | nil => simp
  | cons r rs ih =>
      simp only [List.foldl_cons, ih, List.map_cons, List.sum_cons]
      simp [stepRow, add_assoc]

theorem foldl_stepGroup (pn : String → Option Rat) (rows : List Row)
    (ks : List Key) (acc : DupAcc) :
    ks.foldl (stepGroup pn rows) acc =
      ⟨acc.dup_rows ++ annotate rows acc.group_id ks,
       acc.group_id + ks.length,
       acc.total_value + ((ks.flatMap (membersOf rows)).map (parseVal pn)).sum,
       (ks.flatMap (membersOf rows)).foldl
         (fun l r => pushSeller l (sellerOf r)) acc.unique_sellers⟩ := by
  induction ks generalizing acc with
  | nil => simp [annotate]
  | cons k ks ih =>
      simp only [List.foldl_cons, stepGroup, foldl_stepRow, ih, annotate,
        List.flatMap_cons, List.map_append, List.sum_append, List.foldl_append,
        List.length_cons, List.append_assoc, DupAcc.mk.injEq]
      refine ⟨?_, ?_, ?_, ?_⟩ <;> first | trivial | omega | ring

/-- The cached grouped table, in closed form. -/
theorem dup_rows_eq (pn : String → Option Rat) (rows : List Row) :
    (load_ok pn rows).1 = annotate rows 0 (qualKeys rows) := by
  show (dupAccOf pn rows).dup_rows = _
  rw [dupAccOf, foldl_stepGroup]
  simp

theorem num_groups_eq (pn : String → Option Rat) (rows : List Row) :
    (load_ok pn rows).2.num_groups = (qualKeys rows).length := by
  show (dupAccOf pn rows).group_id = _
  rw [dupAccOf, foldl_stepGroup]
  simp

theorem total_value_eq (pn : String → Option Rat) (rows : List Row) :
    (load_ok pn rows).2.total_value =
      (((qualKeys rows).flatMap (membersOf rows)).map (parseVal pn)).sum := by
  show (dupAccOf pn rows).total_value = _
  rw [dupAccOf, foldl_stepGroup]
  simp

theorem unique_sellers_eq (pn : String → Option Rat) (rows : List Row) :
    (load_ok pn rows).2.unique_sellers =
      (((qualKeys rows).flatMap (membersOf rows)).foldl
        (fun l r => pushSeller l (sellerOf r)) []).length := by
  show (dupAccOf pn rows).unique_sellers.length = _
  rw [dupAccOf, foldl_stepGroup]

theorem annotate_map_row (rows : List Row) (g : Nat) (ks : List Key) :
    (annotate rows g ks).map (fun a => a.row) = ks.flatMap (membersOf rows) := by
  induction ks generalizing g with
  | nil => simp [annotate]
  | cons k ks ih =>
      rw [annotate, List.map_append, ih, List.map_map, List.flatMap_cons]
      congr 1
      exact List.map_id' _


theorem mem_membersOf {rows : List Row} {k : Key} {r : Row}
    (h : r ∈ membersOf rows k) : validB r = true ∧ keyOf r = k := by
  unfold membersOf at h
  have h2 := List.of_mem_filter h
  simp only [Bool.and_eq_true, beq_iff_eq] at h2
  exact h2

theorem annotate_gid_ge (rows : List Row) (g : Nat) (ks : List Key) :
    ∀ a ∈ annotate rows g ks, g ≤ a.gid := by
  induction ks generalizing g with
  | nil => simp [annotate]
  | cons k ks ih =>
      intro a ha
      rcases List.mem_append.mp ha with h | h
      · rcases List.mem_map.mp h with ⟨r, _, rfl⟩
        simp
      · exact Nat.le_of_succ_le (ih (g + 1) a h)

theorem mem_annotate {rows : List Row} {g : Nat} {ks : List Key} {a : ARow}
    (h : a ∈ annotate rows g ks) :
    ∃ i : Fin ks.length, a.gid = g + i.val ∧ a.row ∈ membersOf rows (ks.get i)
      ∧ a.gsize = (membersOf rows (ks.get i)).length := by
  induction ks generalizing g with
  | nil => simp [annotate] at h
  | cons k ks ih =>
      rcases List.mem_append.mp h with h | h
      · rcases List.mem_map.mp h with ⟨r, hr, rfl⟩
        exact ⟨⟨0, by simp⟩, by simp, by simpa using hr, by simp⟩
      · rcases ih h with ⟨i, h1, h2, h3⟩
        refine ⟨⟨i.val + 1, by simp only [List.length_cons]; exact Nat.succ_lt_succ i.isLt⟩, ?_, ?_, ?_⟩
        · show a.gid = g + (i.val + 1)
          omega
        · show a.row ∈ membersOf rows (ks.get ⟨i.val, i.isLt⟩)
          simpa using h2
        · show a.gsize = (membersOf rows (ks.get ⟨i.val, i.isLt⟩)).length
          simpa using h3

theorem annotate_filter_gid (rows : List Row) (ks : List Key) (g j : Nat)
    (hj : j < ks.length) :
    (annotate rows g ks).filter (fun b => b.gid == g + j) =
      (membersOf rows (ks.get ⟨j, hj⟩)).map
        (fun r => ⟨r, g + j, (membersOf rows (ks.get ⟨j, hj⟩)).length⟩) := by
  induction ks generalizing g j with
  | nil => simp at hj
  | cons k ks ih =>
      rw [annotate, List.filter_append]
      cases j with
      | zero =>
          have e1 : (((membersOf rows k).map
              (fun r => (⟨r, g, (membersOf rows k).length⟩ : ARow))).filter
                (fun b => b.gid == g + 0)) =
              (membersOf rows k).map
                (fun r => (⟨r, g, (membersOf rows k).length⟩ : ARow)) := by
            apply List.filter_eq_self.mpr
            intro b hb
            rcases List.mem_map.mp hb with ⟨r, _, rfl⟩
            simp
          have e2 : ((annotate rows (g + 1) ks).filter
              (fun b => b.gid == g + 0)) = [] := by
            apply List.filter_eq_nil_iff.mpr
            intro b hb
            have := annotate_gid_ge rows (g + 1) ks b hb
            simp only [Nat.add_zero, beq_iff_eq]
            omega
          rw [e1, e2, List.append_nil]
          simp
      | succ j' =>
          have hj' : j' < ks.length := by simpa using hj
          have e1 : (((membersOf rows k).map
              (fun r => (⟨r, g, (membersOf rows k).length⟩ : ARow))).filter
                (fun b => b.gid == g + (j' + 1))) = [] := by
            apply List.filter_eq_nil_iff.mpr
            intro b hb
            rcases List.mem_map.mp hb with ⟨r, _, rfl⟩
            simp only [beq_iff_eq]
            omega
          have hpred : (fun b : ARow => b.gid == g + (j' + 1)) =
              (fun b : ARow => b.gid == (g + 1) + j') := by
            funext b
            rw [show g + (j' + 1) = (g + 1) + j' from by omega]
          rw [e1, List.nil_append, hpred, ih (g + 1) j' hj']
          have : g + 1 + j' = g + (j' + 1) := by omega
          simp [this]

theorem membersOf_length_eq_count (rows : List Row) (k : Key) :
    (membersOf rows k).length = (validKeys rows).count k := by
  induction rows with
  | nil => rfl
  | cons r rs ih =>
      unfold membersOf validKeys at ih ⊢
      cases hv : validB r
      · simp [List.filter_cons, hv, ih]
      · cases hk : keyOf r == k
        · simp [List.filter_cons, hv, hk, List.count_cons, ih]
        · simp [List.filter_cons, hv, hk, List.count_cons, ih]

theorem count_perm {β : Type} [BEq β] {l1 l2 : List β} (h : l1.Perm l2)
    (a : β) : l1.count a = l2.count a :=
  h.countP_eq (fun x => x == a)

theorem kdata_inj {a b : Key} (h : kdata a = kdata b) : a = b := by
  have hinj : Function.Injective String.data := fun s t hst => String.ext hst
  exact List.map_injective_iff.mpr hinj h

theorem keyLeB_total (a b : Key) : keyLeB a b = true ∨ keyLeB b a = true := by
  unfold keyLeB
  rcases le_total (kdata a) (kdata b) with h | h
  · exact Or.inl (decide_eq_true h)
  · exact Or.inr (decide_eq_true h)

theorem keyLeB_trans (a b c : Key) (h1 : keyLeB a b = true)
    (h2 : keyLeB b c = true) : keyLeB a c = true := by
  unfold keyLeB at h1 h2 ⊢
  exact decide_eq_true (le_trans (of_decide_eq_true h1) (of_decide_eq_true h2))

theorem keyLeB_antisymm (a b : Key) (h1 : keyLeB a b = true)
    (h2 : keyLeB b a = true) : a = b :=
  kdata_inj (le_antisymm (of_decide_eq_true h1) (of_decide_eq_true h2))

instance : IsAntisymm Key (fun a b => keyLeB a b = true) := ⟨keyLeB_antisymm⟩

theorem sortedKeys_pairwise (rows : List Row) :
    (sortedKeys rows).Pairwise (fun a b => keyLeB a b = true) :=
  isortB_sorted keyLeB keyLeB_total keyLeB_trans _

theorem sortedKeys_nodup (rows : List Row) : (sortedKeys rows).Nodup :=
  ((isortB_perm keyLeB _).nodup_iff).mpr ((validKeys rows).nodup_dedup)

theorem qualKeys_nodup (rows : List Row) : (qualKeys rows).Nodup :=
  (sortedKeys_nodup rows).filter _

theorem qualKeys_pairwise_le (rows : List Row) :
    (qualKeys rows).Pairwise (fun a b => keyLeB a b = true) :=
  (sortedKeys_pairwise rows).sublist (List.filter_sublist _)

theorem qualKeys_pairwise_lt (rows : List Row) :
    (qualKeys rows).Pairwise (fun a b => keyLtB a b = true) := by
  have h2 : (qualKeys rows).Pairwise (fun a b : Key => a ≠ b) := qualKeys_nodup rows
  refine ((qualKeys_pairwise_le rows).and h2).imp ?_
  intro a b hab
  unfold keyLtB
  exact decide_eq_true
    (lt_of_le_of_ne (of_decide_eq_true hab.1) (fun hk => hab.2 (kdata_inj hk)))

theorem qualKeys_perm_inv (rows rowsP : List Row) (hp : rows.Perm rowsP) :
    qualKeys rows = qualKeys rowsP := by
  have hvk : (validKeys rows).Perm (validKeys rowsP) := (hp.filter _).map _
  have hd : (validKeys rows).dedup.Perm (validKeys rowsP).dedup := hvk.dedup
  have hsort : sortedKeys rows = sortedKeys rowsP := by
    refine List.eq_of_perm_of_sorted
      ((isortB_perm _ _).trans (hd.trans (isortB_perm _ _).symm))
      (sortedKeys_pairwise rows) (sortedKeys_pairwise rowsP)
  unfold qualKeys
  rw [hsort]
  refine List.filter_congr ?_
  intro k _
  rw [count_perm hvk k]

theorem qualKeys_length_eq (rows : List Row) :
    (qualKeys rows).length =
      ((validKeys rows).dedup.filter
        (fun k => 2 ≤ (validKeys rows).count k)).length := by
  unfold qualKeys sortedKeys
  exact (((isortB_perm keyLeB _).filter _)).length_eq

theorem mem_qualKeys_count {rows : List Row} {k : Key} (h : k ∈ qualKeys rows) :
    2 ≤ (validKeys rows).count k := by
  unfold qualKeys at h
  have := List.of_mem_filter h
  simpa using this

theorem mem_pushSeller {acc : List String} {s x : String} :
    x ∈ pushSeller acc s ↔ x ∈ acc ∨ (s ≠ "" ∧ x = s) := by
  by_cases h1 : s = ""
  · subst h1
    simp [pushSeller]
  · by_cases h2 : s ∈ acc
    · have hc : (s != "" && !(acc.contains s)) = false := by
        simp [h2]
      rw [pushSeller, hc]
      simp only [Bool.false_eq_true, if_false]
      constructor
      · exact Or.inl
      · rintro (hx | ⟨-, rfl⟩)
        · exact hx
        · exact h2
    · have hc : (s != "" && !(acc.contains s)) = true := by
        simp [h1, h2]
      rw [pushSeller, hc]
      simp only [if_true, List.mem_append, List.mem_singleton]
      constructor
      · rintro (hx | rfl)
        · exact Or.inl hx
        · exact Or.inr ⟨h1, rfl⟩
      · rintro (hx | ⟨-, rfl⟩)
        · exact Or.inl hx
        · exact Or.inr rfl

theorem mem_foldl_pushSeller (l : List Row) (acc : List String) (x : String) :
    x ∈ l.foldl (fun ac r => pushSeller ac (sellerOf r)) acc ↔
      x ∈ acc ∨ x ∈ l.filterMap sOpt := by
  induction l generalizing acc with
  | nil => simp
  | cons r rs ih =>
      rw [List.foldl_cons, ih, mem_pushSeller]
      by_cases h : sellerOf r = ""
      · have hs : sOpt r = none := by simp [sOpt, h]
        simp [List.filterMap_cons, hs, h]
      · have hs : sOpt r = some (sellerOf r) := by simp [sOpt, h]
        simp only [List.filterMap_cons, hs, List.mem_cons]
        constructor
        · rintro ((hx | ⟨-, rfl⟩) | hx)
          · exact Or.inl hx
          · exact Or.inr (Or.inl rfl)
          · exact Or.inr (Or.inr hx)
        · rintro (hx | (rfl | hx))
          · exact Or.inl (Or.inl hx)
          · exact Or.inl (Or.inr ⟨h, rfl⟩)
          · exact Or.inr hx

theorem nodup_foldl_pushSeller (l : List Row) (acc : List String)
    (h : acc.Nodup) :
    (l.foldl (fun ac r => pushSeller ac (sellerOf r)) acc).Nodup := by
  induction l generalizing acc with
  | nil => simpa using h
  | cons r rs ih =>
      rw [List.foldl_cons]
      refine ih _ ?_
      unfold pushSeller
      split
      · rename_i hc
        have hs : sellerOf r ∉ acc := by
          simp only [Bool.and_eq_true] at hc
          simpa using hc.2
        simp [List.nodup_append, h, hs]
      · exact h

theorem length_foldl_pushSeller (l : List Row) :
    (l.foldl (fun ac r => pushSeller ac (sellerOf r)) []).length =
      (l.filterMap sOpt).dedup.length := by
  have hnd : (l.foldl (fun ac r => pushSeller ac (sellerOf r)) []).Nodup :=
    nodup_foldl_pushSeller l [] (by simp)
  have hfin : (l.foldl (fun ac r => pushSeller ac (sellerOf r)) []).toFinset =
      (l.filterMap sOpt).toFinset := by
    ext x
    simp only [List.mem_toFinset]
    simpa using mem_foldl_pushSeller l [] x
  calc (l.foldl (fun ac r => pushSeller ac (sellerOf r)) []).length
      = (l.foldl (fun ac r => pushSeller ac (sellerOf r)) []).toFinset.card :=
        (List.toFinset_card_of_nodup hnd).symm
    _ = (l.filterMap sOpt).toFinset.card := by rw [hfin]
    _ = (l.filterMap sOpt).dedup.length := List.card_toFinset _

theorem fLe_total (f : SField) (a b : RRec) :
    fLe f a b = true ∨ fLe f b a = true := by
  cases f <;> simp [fLe] <;> exact le_total _ _

theorem fLe_trans (f : SField) (a b c : RRec) (h1 : fLe f a b = true)
    (h2 : fLe f b c = true) : fLe f a c = true := by
  cases f <;> simp [fLe] at h1 h2 ⊢ <;> exact le_trans h1 h2

theorem rLe_total (f : SField) (dsc : Bool) (a b : RRec) :
    rLe f dsc a b = true ∨ rLe f dsc b a = true := by
  cases dsc
  · simpa [rLe] using fLe_total f a b
  · simpa [rLe] using fLe_total f b a

theorem rLe_trans (f : SField) (dsc : Bool) (a b c : RRec)
    (h1 : rLe f dsc a b = true) (h2 : rLe f dsc b c = true) :
    rLe f dsc a c = true := by
  cases dsc
  · simp only [rLe, Bool.false_eq_true, if_false] at h1 h2 ⊢
    exact fLe_trans f a b c h1 h2
  · simp only [rLe, if_true] at h1 h2 ⊢
    exact fLe_trans f c b a h2 h1

theorem length_filter_enum_snd (P : β → Bool) (l : List β) :
    (l.enum.filter (fun p => P p.2)).length = (l.filter P).length := by
  conv_rhs => rw [show l = l.enum.map Prod.snd from (List.enum_map_snd l).symm]
  rw [List.filter_map, List.length_map]
  rfl

theorem rSortedI_length (q : RQ) (data : List RRec) :
    (rSortedI q data).length = (rFilteredI q data).length := by
  simp only [rSortedI]
  split
  · rfl
  · exact (isortB_perm _ _).length_eq

theorem rFilteredI_length_le (q : RQ) (data : List RRec) :
    (rFilteredI q data).length ≤ data.length := by
  simp only [rFilteredI]
  split
  · calc (data.enum.filter _).length ≤ data.enum.length :=
        (List.filter_sublist _).length_le
      _ = data.length := List.enum_length
  · simp [List.enum_length]

theorem getV_cons (p : String × String) (ps : Row) (k : String) :
    getV (p :: ps) k = if p.1 == k then some p.2 else getV ps k := by
  unfold getV
  cases h : p.1 == k <;> simp [List.find?_cons, h]

theorem getV_dash (r : Row) (k : String) (hk : undKey k = false) :
    getV (r.filterMap
        (fun p => if undKey p.1 then none else some (p.1, dashify p.2))) k
      = (getV r k).map dashify := by
  induction r with
  | nil => rfl
  | cons p ps ih =>
      by_cases hu : undKey p.1 = true
      · have hne : (p.1 == k) = false := by
          cases hbe : p.1 == k
          · rfl
          · have heq : p.1 = k := eq_of_beq hbe
            rw [heq, hk] at hu
            exact absurd hu (by simp)
        rw [List.filterMap_cons]
        simp only [hu, if_true]
        rw [ih, getV_cons, hne]
        simp
      · have hu' : undKey p.1 = false := by simpa using hu
        rw [List.filterMap_cons]
        simp only [hu', Bool.false_eq_true, if_false]
        cases hbe : p.1 == k
        · rw [getV_cons, getV_cons]
          simp only [hbe, Bool.false_eq_true, if_false]
          exact ih
        · rw [getV_cons, getV_cons]
          simp [hbe]

theorem getV_dash_und (r : Row) (k : String) (hk : undKey k = true) :
    getV (r.filterMap
        (fun p => if undKey p.1 then none else some (p.1, dashify p.2))) k
      = none := by
  induction r with
  | nil => rfl
  | cons p ps ih =>
      by_cases hu : undKey p.1 = true
      · rw [List.filterMap_cons]
        simp only [hu, if_true]
        exact ih
      · have hu' : undKey p.1 = false := by simpa using hu
        have hne : (p.1 == k) = false := by
          cases hbe : p.1 == k
          · rfl
          · have heq : p.1 = k := eq_of_beq hbe
            rw [heq, hk] at hu'
            exact absurd hu' (by simp)
        rw [List.filterMap_cons]
        simp only [hu', Bool.false_eq_true, if_false]
        rw [getV_cons]
        simp only [hne, Bool.false_eq_true, if_false]
        exact ih

theorem fields_not_und (a : ARow) (st : Int) (i : Nat) :
    ∀ kv ∈ (dupOut st i a).fields, undKey kv.1 = false := by
  intro kv hkv
  unfold dupOut at hkv
  simp only at hkv
  rcases List.mem_filterMap.mp hkv with ⟨p, _, he⟩
  by_cases hu : undKey p.1 = true
  · rw [if_pos hu] at he
    cases he
  · have hu' : undKey p.1 = false := by simpa using hu
    rw [if_neg (by simp [hu'])] at he
    injection he with he2
    rw [← he2]
    exact hu'

theorem pySlice_nil (a b : Int) : pySlice a b ([] : List β) = [] := by
  unfold pySlice
  simp

/-- The ratio response page, in closed form: the slice of the sorted
sequence with recomputed 1-based row numbers. -/
theorem crn_resp_data (q : RQ) (data : List RRec) :
    (api_crn_ratio q data).1.data =
      (pySlice q.start (q.start + q.length) (rSortedI q data)).enum.map
        (fun p => { p.2.2 with rowNum := some (q.start + p.1 + 1) }) := by
  simp only [api_crn_ratio, rPageI]
  rw [List.map_map]
  rfl

/-- Serving a ratio query changes at most the `_row_num` annotation of the
cached records: stripping it, the table is unchanged. -/
theorem crn_state_stripNum (q : RQ) (data : List RRec) :
    (api_crn_ratio q data).2.map stripNum = data.map stripNum := by
  show (data.enum.map _).map stripNum = _
  rw [List.map_map]
  rw [List.map_congr_left (g := fun p : Nat × RRec => stripNum p.2) ?_]
  · rw [show (fun p : Nat × RRec => stripNum p.2) =
        (stripNum ∘ Prod.snd) from rfl, ← List.map_map, List.enum_map_snd]
  · intro p _
    simp only [Function.comp]
    cases ((rPageI q data).find? (fun t => t.1 == p.1)) with
    | none => rfl
    | some t => rfl

theorem crn_state_length (q : RQ) (data : List RRec) :
    (api_crn_ratio q data).2.length = data.length := by
  show (data.enum.map _).length = _
  rw [List.length_map, List.enum_length]

theorem crn_resp_rowNum (q : RQ) (data : List RRec) (i : Nat)
    (h : i < (api_crn_ratio q data).1.data.length) :
    ((api_crn_ratio q data).1.data[i]).rowNum = some (q.start + i + 1) := by
  have e := crn_resp_data q data
  have h2 : i < ((pySlice q.start (q.start + q.length)
      (rSortedI q data)).enum.map
        (fun p => { p.2.2 with rowNum := some (q.start + p.1 + 1) })).length := by
    rw [← e]
    exact h
  have h5 : i < (pySlice q.start (q.start + q.length)
      (rSortedI q data)).length := by
    simpa using h2
  have h6 : i < (pySlice q.start (q.start + q.length)
      (rSortedI q data)).enum.length := by
    simpa using h5
  rw [List.getElem_of_eq e h, List.getElem_map]
  have h4 : ((pySlice q.start (q.start + q.length)
      (rSortedI q data)).enum[i]).1 = i := by
    rw [List.getElem_enum]
  rw [h4]

theorem api_duplicates_nil (q : DupQ) :
    api_duplicates q [] = ⟨q.draw, 0, 0, []⟩ := by
  simp only [api_duplicates, dupFiltered]
  simp [pySlice_nil]

theorem api_crn_ratio_nil (q : RQ) :
    (api_crn_ratio q []).1 = ⟨q.draw, 0, 0, []⟩ ∧
      (api_crn_ratio q []).2 = [] := by
  have hf : rFilteredI q [] = [] := by
    simp only [rFilteredI]
    simp
  have hs : rSortedI q [] = [] := by
    simp only [rSortedI, hf]
    split <;> simp [isortB]
  constructor
  · simp only [api_crn_ratio, rPageI, hs, hf, pySlice_nil]
    simp
  · simp only [api_crn_ratio]
    simp

/-! ### Concrete data for witnesses and counterexamples -/

/-- A numeric parser instance for concrete runs: every parse fails (each
value then contributes zero, per the loader's `except` path). -/
def pn0 : String → Option Rat := fun _ => none

/-- A CSV row with the four key columns and the monetary column. -/
def mkRow (b s d n : String) : Row :=
  [("BuyerDtls_Gstin", b), ("SellerDtls_Gstin", s), ("DocDtls_Dt", d),
   ("DocDtls_No", n), ("ValDtls_TotInvVal", "10")]

/-- Six rows: an `A` key appearing twice (once with whitespace to trim), a
`Z` key appearing twice, a key occurring once, and a row with an empty key
component. -/
def wRows : List Row :=
  [mkRow "Z" "B" "2024-01-01" "INV-1",
   mkRow "A" "B" "2024-01-02" "INV-2",
   mkRow "" "B" "2024-01-01" "X",
   mkRow "A" "B" "2024-01-01" " INV-1 ",
   mkRow "A" "B" "2024-01-01" "INV-1",
   mkRow "Z" "B" "2024-01-01" "INV-1"]

def wRowsP : List Row := wRows.reverse

/-- Three rows with one identical composite key and no "3" in any field. -/
def csv3 : List Row :=
  [mkRow "A" "B" "2024-01-01" "INV-1",
   mkRow "A" "B" "2024-01-01" "INV-1",
   mkRow "A" "B" "2024-01-01" "INV-1"]

def q3 : DupQ := ⟨1, 0, 100, "3"⟩

/-- The claim's search predicate for the duplicate view, from the spec's
words: the search string is a case-insensitive substring of the string form
of the value of some display field of the record. -/
def dispMatch (cols : List String) (s : String) (a : ARow) : Bool :=
  cols.any (fun c => pyIn s (pyLower ((getV a.row c).getD "")))

def r0 : RRec := ⟨"G1", "alpha", 1, 1, 1, 1, 1, 1, none⟩

def rq0 : RQ := ⟨1, 0, 50, "", none, none⟩

def rq5 : RQ := ⟨1, 0, 50, "", some 5, some "asc"⟩

def rqG : RQ := ⟨1, 0, 50, " G1 ", none, none⟩

def rdataW : List RRec :=
  [⟨"G1", "alpha", 1, 1, 1, 1, 1, 1, none⟩,
   ⟨"G2", "beta", 3, 2, 1, 1, 1, 1, none⟩,
   ⟨"G3", "gamma", 2, 2, 1, 1, 1, 1, none⟩]

def rows5 : List ARow :=
  [⟨[("F", "r1")], 0, 5⟩, ⟨[("F", "r2")], 0, 5⟩, ⟨[("F", "r3")], 0, 5⟩,
   ⟨[("F", "r4")], 0, 5⟩, ⟨[("F", "r5")], 0, 5⟩]

def qNeg : DupQ := ⟨1, 0, -1, ""⟩

def qd100 : DupQ := ⟨1, 0, 100, ""⟩

def qPage : DupQ := ⟨1, 0, 2, ""⟩

def wABC : List ARow := [⟨[("F", "xyzAbCzyx")], 0, 2⟩, ⟨[("F", "other")], 0, 2⟩]

def qABC : DupQ := ⟨1, 0, 100, " ABC "⟩

def rowsE : List ARow := [⟨[("A", ""), ("_x", "s"), ("B", "b")], 4, 2⟩]

def qdE : DupQ := ⟨7, 0, 100, ""⟩

/-! ### Claim theorems -/

theorem keyLtB_irrefl (a : Key) : keyLtB a a = false := by
  unfold keyLtB
  simp

theorem keyLtB_asymm {a b : Key} (h : keyLtB a b = true) :
    keyLtB b a = false := by
  unfold keyLtB at h ⊢
  exact decide_eq_false (not_lt_of_gt (of_decide_eq_true h))

/-- In a strictly ascending list, the number of elements below the element
at position `i` is exactly `i`: ranks are dense and 0-based. -/
theorem rank_of_pairwise (l : List Key)
    (hpw : l.Pairwise (fun a b => keyLtB a b = true)) :
    ∀ i (h : i < l.length),
      (l.filter (fun k => keyLtB k (l.get ⟨i, h⟩))).length = i := by
  induction l with
  | nil => intro i h; simp at h
  | cons x xs ih =>
      intro i h
      cases i with
      | zero =>
          show (List.filter (fun k => keyLtB k x) (x :: xs)).length = 0
          rw [List.filter_cons, keyLtB_irrefl]
          simp only [Bool.false_eq_true, if_false]
          rw [List.filter_eq_nil_iff.mpr ?_]
          · rfl
          · intro k hk
            have hlt := (List.pairwise_cons.mp hpw).1 k hk
            simp [keyLtB_asymm hlt]
      | succ j =>
          have hj : j < xs.length := by simpa using h
          show (List.filter (fun k => keyLtB k (xs.get ⟨j, hj⟩)) (x :: xs)).length
              = j + 1
          rw [List.filter_cons]
          have hx : keyLtB x (xs.get ⟨j, hj⟩) = true :=
            (List.pairwise_cons.mp hpw).1 _ (xs.get_mem _ _)
          rw [hx]
          simp only [if_true, List.length_cons]
          rw [ih (List.pairwise_cons.mp hpw).2 j hj]

/-- Each emitted row's `_group_id` is the rank of its composite key among
the qualifying keys, in ascending key order. -/
theorem gid_rank (pn : String → Option Rat) (rows : List Row) :
    ∀ a ∈ (load_ok pn rows).1,
      a.gid = ((qualKeys rows).filter
        (fun k => keyLtB k (keyOf a.row))).length := by
  intro a ha
  rw [dup_rows_eq] at ha
  obtain ⟨i, hgid, hmem, -⟩ := mem_annotate ha
  have hkey : keyOf a.row = (qualKeys rows).get i := (mem_membersOf hmem).2
  rw [hkey]
  have hr := rank_of_pairwise (qualKeys rows) (qualKeys_pairwise_lt rows)
    i.val i.isLt
  have he : (qualKeys rows).get ⟨i.val, i.isLt⟩ = (qualKeys rows).get i := rfl
  rw [he] at hr
  rw [hr]
  omega

/-- C1: every loaded duplicate table's grouped output contains only records
whose trimmed composite key has no empty component; all members of one group
(same `_group_id`) share the same trimmed composite key; and every group
appearing in the output has at least 2 member records. -/
theorem C1_grouped_output (pn : String → Option Rat) (rows : List Row) :
    ∀ a ∈ (load_ok pn rows).1,
      (∀ s ∈ keyOf a.row, s ≠ "")
      ∧ (∀ b ∈ (load_ok pn rows).1, b.gid = a.gid → keyOf b.row = keyOf a.row)
      ∧ 2 ≤ ((load_ok pn rows).1.filter (fun b => b.gid == a.gid)).length := by
  intro a ha
  have ha' := ha
  rw [dup_rows_eq] at ha'
  obtain ⟨i, hgid, hmem, hsize⟩ := mem_annotate ha'
  have hkey : keyOf a.row = (qualKeys rows).get i := (mem_membersOf hmem).2
  have hvalid : validB a.row = true := (mem_membersOf hmem).1
  refine ⟨?_, ?_, ?_⟩
  · intro s hs
    have h3 : (s != "") = true := by
      unfold validB allTruthy at hvalid
      exact List.all_eq_true.mp hvalid s hs
    simpa using h3
  · intro b hb hgb
    rw [dup_rows_eq] at hb
    obtain ⟨j, hgj, hmj, -⟩ := mem_annotate hb
    have hij : j = i := by
      apply Fin.ext
      omega
    have hkj : keyOf b.row = (qualKeys rows).get j := (mem_membersOf hmj).2
    rw [hkj, hkey, hij]
  · rw [dup_rows_eq, hgid]
    have h0 : (0 : Nat) + i.val = i.val := by omega
    rw [h0]
    have hfu : i.val = 0 + i.val := by omega
    rw [hfu, annotate_filter_gid rows (qualKeys rows) 0 i.val i.isLt,
      List.length_map, membersOf_length_eq_count]
    exact mem_qualKeys_count (List.get_mem _ _ _)

/-- C2: qualifying groups are emitted in strictly ascending lexicographic
composite-key order; the emitted table is exactly the qualifying keys in
that order, each key's members annotated with its 0-based rank as
`_group_id` (dense enumeration) and the member count as `_group_size`
(= the number of valid rows bearing that key); and the qualifying key
sequence — hence each key's `groupId` — is invariant under any permutation
of the input rows. -/
theorem C2_group_enumeration (pn : String → Option Rat) (rows rowsP : List Row)
    (hp : rows.Perm rowsP) :
    (qualKeys rows).Pairwise (fun a b => keyLtB a b = true)
    ∧ (load_ok pn rows).1 = annotate rows 0 (qualKeys rows)
    ∧ (∀ a ∈ (load_ok pn rows).1,
        a.gid = ((qualKeys rows).filter
          (fun k => keyLtB k (keyOf a.row))).length
        ∧ a.gsize = (validKeys rows).count (keyOf a.row))
    ∧ qualKeys rows = qualKeys rowsP
    ∧ (∀ a ∈ (load_ok pn rows).1, ∀ b ∈ (load_ok pn rowsP).1,
        keyOf a.row = keyOf b.row → a.gid = b.gid) := by
  have hq := qualKeys_perm_inv rows rowsP hp
  refine ⟨qualKeys_pairwise_lt rows, dup_rows_eq pn rows, ?_, hq, ?_⟩
  · intro a ha
    refine ⟨gid_rank pn rows a ha, ?_⟩
    rw [dup_rows_eq] at ha
    obtain ⟨i, -, hmem, hsize⟩ := mem_annotate ha
    rw [hsize, membersOf_length_eq_count, (mem_membersOf hmem).2]
  · intro a ha b hb hk
    rw [gid_rank pn rows a ha, gid_rank pn rowsP b hb, hq, hk]

/-- C9: the duplicate dataset's statistics equal their specification: row
count of the grouped output, number of qualifying groups (distinct valid
keys with at least two valid rows), the sum over emitted rows of the parsed
monetary value with parse failures contributing zero, and the number of
distinct non-empty trimmed seller GSTINs among emitted rows. -/
theorem C9_duplicate_stats (pn : String → Option Rat) (rows : List Row) :
    (load_ok pn rows).2.total_rows = (load_ok pn rows).1.length
    ∧ (load_ok pn rows).2.num_groups =
        ((validKeys rows).dedup.filter
          (fun k => 2 ≤ (validKeys rows).count k)).length
    ∧ (load_ok pn rows).2.total_value =
        ((load_ok pn rows).1.map (fun a => parseVal pn a.row)).sum
    ∧ (load_ok pn rows).2.unique_sellers =
        ((load_ok pn rows).1.filterMap (fun a => sOpt a.row)).dedup.length := by
  refine ⟨rfl, ?_, ?_, ?_⟩
  · rw [num_groups_eq, qualKeys_length_eq]
  · rw [total_value_eq, dup_rows_eq]
    congr 1
    rw [← annotate_map_row rows 0 (qualKeys rows), List.map_map]
    rfl
  · rw [unique_sellers_eq, length_foldl_pushSeller, dup_rows_eq]
    congr 2
    rw [← annotate_map_row rows 0 (qualKeys rows), List.filterMap_map]
    rfl

/-- C3 counterexample: serving a ratio query mutates the cached table — the
page loop stores `_row_num` on the cached record, so after one default
query the one-record cache differs from what was loaded. -/
theorem C3_counterexample : (api_crn_ratio rq0 [r0]).2 ≠ [r0] := by decide

/-- C3 (amended): a duplicates query never mutates the cached table; a
ratio query mutates only the `_row_num` annotation of the cached records
(every other field of every cached record is unchanged, the table length is
unchanged), and the `_row_num` served in the response is recomputed per
request as `start + positionInPage + 1`. -/
theorem C3_no_mutation_amended (q : DupQ) (rows : List ARow) (qr : RQ)
    (data : List RRec) :
    (api_duplicates_state q rows).2 = rows
    ∧ (api_crn_ratio qr data).2.length = data.length
    ∧ (api_crn_ratio qr data).2.map stripNum = data.map stripNum
    ∧ (∀ i (h : i < (api_crn_ratio qr data).1.data.length),
        ((api_crn_ratio qr data).1.data[i]).rowNum = some (qr.start + i + 1)) :=
  ⟨rfl, crn_state_length qr data, crn_state_stripNum qr data,
   fun i h => crn_resp_rowNum qr data i h⟩

theorem C3_witness :
    (api_crn_ratio rq0 [r0]).2.length = 1
    ∧ ((api_crn_ratio rq0 [r0]).1.data.get ⟨0, by decide⟩).rowNum = some 1 := by
  have h := C3_no_mutation_amended qd100 rows5 rq0 [r0]
  exact ⟨h.2.1, h.2.2.2 0 (by decide)⟩

/-- C4 counterexample: with search "3", all three cached rows match (the
search scans every stored dict value, including the `_group_size`
annotation 3), while no display field of any of them contains "3" — so
"matches iff some display field contains the string" is false. -/
theorem C4_counterexample :
    (api_duplicates q3 (load_ok pn0 csv3).1).recordsFiltered = 3
    ∧ ((load_ok pn0 csv3).1.filter
        (dispMatch DISPLAY_COLS_PREFERRED (pyLower (pyStrip "3")))).length
      = 0 := by decide

/-- C4 (amended): for a duplicates query with non-empty search, a record
matches iff the search string is, case-insensitively, a substring of the
string form of some truthy stored value of the cached record — any CSV
field value or the `_group_id`/`_group_size` annotations (empty strings and
the integer 0 are falsy and skipped) — not only display fields; for a ratio
query with non-empty search, a record matches iff the search string is,
case-insensitively, a substring of its `gstin` or its `name` field, and of
no other field (as the claim states). -/
theorem C4_search_amended (q : DupQ) (rows : List ARow) (qr : RQ)
    (data : List RRec) (hs : pyLower (pyStrip q.search) ≠ "")
    (hr : pyLower (pyStrip qr.search) ≠ "") :
    (api_duplicates q rows).recordsFiltered =
      (rows.filter (dupMatchB (pyLower (pyStrip q.search)))).length
    ∧ (∀ a : ARow, dupMatchB (pyLower (pyStrip q.search)) a = true ↔
        ∃ v ∈ dupValues a, truthy v = true ∧
          pyIn (pyLower (pyStrip q.search)) (pyLower (pyStr v)) = true)
    ∧ (api_crn_ratio qr data).1.recordsFiltered =
      (data.filter (rMatchB (pyLower (pyStrip qr.search)))).length
    ∧ (∀ r : RRec, rMatchB (pyLower (pyStrip qr.search)) r = true ↔
        (pyIn (pyLower (pyStrip qr.search)) (pyLower r.gstin) = true
          ∨ pyIn (pyLower (pyStrip qr.search)) (pyLower r.name) = true)) := by
  refine ⟨?_, ?_, ?_, ?_⟩
  · show (dupFiltered q rows).length = _
    simp only [dupFiltered]
    rw [if_pos (by simpa using hs)]
  · intro a
    simp [dupMatchB, List.any_eq_true, Bool.and_eq_true]
  · show (rFilteredI qr data).length = _
    simp only [rFilteredI]
    rw [if_pos (by simpa using hr)]
    exact length_filter_enum_snd _ _
  · intro r
    simp [rMatchB, Bool.or_eq_true]

theorem C4_witness :
    (api_duplicates qABC wABC).recordsFiltered =
      (wABC.filter (dupMatchB (pyLower (pyStrip qABC.search)))).length
    ∧ (api_duplicates qABC wABC).recordsFiltered = 1 :=
  ⟨(C4_search_amended qABC wABC rqG rdataW (by decide) (by decide)).1,
   by decide⟩

/-- C5: when the ratio query's resolved sort key is a record field (not the
row-number pseudo-column), the served sequence is the filtered sequence
stably sorted by that field in the requested direction: it is a permutation
of the filtered sequence, sorted w.r.t. the direction's comparison, and
ties (records whose sort field compares equal both ways against any fixed
record) keep their pre-sort relative order; identical requests over
unchanged data are served from this same deterministic sequence.  When the
request supplies no order, the defaults resolve to the ratio field,
descending. -/
theorem C5_ratio_sort (q : RQ) (data : List RRec)
    (hf : colMap (q.orderCol.getD 4) ≠ SField.rownum) :
    rSortedI q data = isortB (fun a b => rLe (colMap (q.orderCol.getD 4))
        ((q.orderDir.getD "desc") == "desc") a.2 b.2) (rFilteredI q data)
    ∧ (rSortedI q data).Perm (rFilteredI q data)
    ∧ (rSortedI q data).Pairwise (fun a b =>
        rLe (colMap (q.orderCol.getD 4))
          ((q.orderDir.getD "desc") == "desc") a.2 b.2 = true)
    ∧ (∀ r0 : RRec, (rSortedI q data).filter
        (fun p => fLe (colMap (q.orderCol.getD 4)) p.2 r0
          && fLe (colMap (q.orderCol.getD 4)) r0 p.2) =
        (rFilteredI q data).filter
        (fun p => fLe (colMap (q.orderCol.getD 4)) p.2 r0
          && fLe (colMap (q.orderCol.getD 4)) r0 p.2))
    ∧ (q.orderCol = none → q.orderDir = none →
        colMap (q.orderCol.getD 4) = SField.ratioF
          ∧ ((q.orderDir.getD "desc") == "desc") = true)
    ∧ (api_crn_ratio q data).1.data =
        (pySlice q.start (q.start + q.length) (rSortedI q data)).enum.map
          (fun p => { p.2.2 with rowNum := some (q.start + p.1 + 1) }) := by
  have he : rSortedI q data = isortB (fun a b => rLe (colMap (q.orderCol.getD 4))
      ((q.orderDir.getD "desc") == "desc") a.2 b.2) (rFilteredI q data) := by
    simp only [rSortedI]
    rw [if_neg hf]
  refine ⟨he, ?_, ?_, ?_, ?_, crn_resp_data q data⟩
  · rw [he]
    exact isortB_perm _ _
  · rw [he]
    exact isortB_sorted
      (fun a b : Nat × RRec => rLe (colMap (q.orderCol.getD 4))
        ((q.orderDir.getD "desc") == "desc") a.2 b.2)
      (fun a b => rLe_total _ _ a.2 b.2)
      (fun a b c h1 h2 => rLe_trans _ _ a.2 b.2 c.2 h1 h2) _
  · intro r0
    rw [he]
    apply isortB_filter
    intro a b hPa hPb
    simp only [Bool.and_eq_true] at hPa hPb
    unfold rLe
    split
    · exact fLe_trans _ _ _ _ hPb.1 hPa.2
    · exact fLe_trans _ _ _ _ hPa.1 hPb.2
  · intro h1 h2
    rw [h1, h2]
    exact ⟨by decide, by decide⟩

theorem C5_witness :
    rSortedI rq5 rdataW = isortB (fun a b => rLe (colMap ((rq5.orderCol).getD 4))
        ((rq5.orderDir.getD "desc") == "desc") a.2 b.2) (rFilteredI rq5 rdataW)
    ∧ (rSortedI rq5 rdataW).map (fun p => p.2.gstin) = ["G1", "G2", "G3"] :=
  ⟨(C5_ratio_sort rq5 rdataW (by decide)).1, by decide⟩

/-- C6 counterexample: with requested length -1 (Python slice semantics:
`filtered[0:-1]`), the duplicates endpoint returns 4 of the 5 rows, so the
page size is not ≤ the requested length. -/
theorem C6_counterexample :
    ¬ (((api_duplicates qNeg rows5).data.length : Int) ≤ qNeg.length) := by
  decide

theorem dupFiltered_length_le (q : DupQ) (rows : List ARow) :
    (dupFiltered q rows).length ≤ rows.length := by
  simp only [dupFiltered]
  split
  · exact (List.filter_sublist _).length_le
  · exact le_rfl

theorem api_dup_data_length (q : DupQ) (rows : List ARow) :
    (api_duplicates q rows).data.length =
      (pySlice q.start (q.start + q.length) (dupFiltered q rows)).length := by
  show ((pySlice q.start (q.start + q.length)
    (dupFiltered q rows)).enum.map _).length = _
  rw [List.length_map, List.enum_length]

theorem api_crn_data_length (q : RQ) (data : List RRec) :
    (api_crn_ratio q data).1.data.length =
      (pySlice q.start (q.start + q.length) (rSortedI q data)).length := by
  rw [crn_resp_data, List.length_map, List.enum_length]

/-- C6 (amended): for every query against either dataset,
`recordsFiltered ≤ recordsTotal` and the page size is ≤ `recordsFiltered`;
the page size is ≤ the requested length whenever the requested length is
nonnegative (a negative length, e.g. DataTables' "show all" value -1,
produces a Python slice `filtered[start:start+length]` that can exceed it). -/
theorem C6_count_bounds_amended (q : DupQ) (rows : List ARow) (qr : RQ)
    (data : List RRec) :
    (api_duplicates q rows).recordsFiltered ≤ (api_duplicates q rows).recordsTotal
    ∧ (api_duplicates q rows).data.length ≤ (api_duplicates q rows).recordsFiltered
    ∧ (0 ≤ q.length → ((api_duplicates q rows).data.length : Int) ≤ q.length)
    ∧ (api_crn_ratio qr data).1.recordsFiltered ≤
        (api_crn_ratio qr data).1.recordsTotal
    ∧ (api_crn_ratio qr data).1.data.length ≤
        (api_crn_ratio qr data).1.recordsFiltered
    ∧ (0 ≤ qr.length →
        ((api_crn_ratio qr data).1.data.length : Int) ≤ qr.length) := by
  refine ⟨?_, ?_, ?_, ?_, ?_, ?_⟩
  · exact dupFiltered_length_le q rows
  · rw [api_dup_data_length]
    exact pySlice_length_le _ _ _
  · intro hlen
    rw [api_dup_data_length]
    exact pySlice_length_le_len _ _ _ hlen
  · exact rFilteredI_length_le qr data
  · rw [api_crn_data_length]
    calc (pySlice qr.start (qr.start + qr.length) (rSortedI qr data)).length
        ≤ (rSortedI qr data).length := pySlice_length_le _ _ _
      _ = (rFilteredI qr data).length := rSortedI_length qr data
  · intro hlen
    rw [api_crn_data_length]
    exact pySlice_length_le_len _ _ _ hlen

theorem C6_witness :
    ((api_duplicates qd100 rows5).data.length : Int) ≤ qd100.length
    ∧ ((api_crn_ratio rq0 rdataW).1.data.length : Int) ≤ rq0.length := by
  have h := C6_count_bounds_amended qd100 rows5 rq0 rdataW
  exact ⟨h.2.2.1 (by decide), h.2.2.2.2.2 (by decide)⟩

/-- C7: for nonnegative offset and length, the returned page is exactly the
subsequence `[start, start+length)` of the filtered (and, for the ratio
endpoint, sorted) sequence, clipped to the available length — and an offset
at or beyond the filtered size yields an empty page, never an error. -/
theorem C7_pagination (q : DupQ) (rows : List ARow) (qr : RQ)
    (data : List RRec) (h1 : 0 ≤ q.start) (h2 : 0 ≤ q.length)
    (h3 : 0 ≤ qr.start) (h4 : 0 ≤ qr.length) :
    (api_duplicates q rows).data =
      (((dupFiltered q rows).drop q.start.toNat).take q.length.toNat).enum.map
        (fun p => dupOut q.start p.1 p.2)
    ∧ ((dupFiltered q rows).length ≤ q.start.toNat →
        (api_duplicates q rows).data = [])
    ∧ (api_crn_ratio qr data).1.data =
      (((rSortedI qr data).drop qr.start.toNat).take qr.length.toNat).enum.map
        (fun p => { p.2.2 with rowNum := some (qr.start + p.1 + 1) })
    ∧ ((rSortedI qr data).length ≤ qr.start.toNat →
        (api_crn_ratio qr data).1.data = []) := by
  refine ⟨?_, ?_, ?_, ?_⟩
  · show (pySlice q.start (q.start + q.length)
      (dupFiltered q rows)).enum.map _ = _
    rw [pySlice_nonneg _ _ _ h1 h2]
  · intro hge
    show (pySlice q.start (q.start + q.length)
      (dupFiltered q rows)).enum.map _ = []
    rw [pySlice_empty_of_ge _ _ _ h1 hge]
    rfl
  · rw [crn_resp_data, pySlice_nonneg _ _ _ h3 h4]
  · intro hge
    rw [crn_resp_data, pySlice_empty_of_ge _ _ _ h3 hge]
    rfl

theorem C7_witness :
    (api_duplicates qPage rows5).data =
      (((dupFiltered qPage rows5).drop 0).take 2).enum.map
        (fun p => dupOut qPage.start p.1 p.2)
    ∧ (api_duplicates qPage rows5).data.length = 2
    ∧ (api_duplicates qPage rows5).recordsFiltered = 5 :=
  ⟨(C7_pagination qPage rows5 rq0 rdataW (by decide) (by decide) (by decide)
      (by decide)).1,
   by decide, by decide⟩

/-- C8 counterexample: the `try` in `load_crn_ratios` covers only `open`
and `json.load` (`app.py` lines 108-112); an existing file whose content
decodes to JSON that is not a list of record objects reaches the stats
block outside the `try` and raises (`AttributeError` from `.get` on a
non-dict, `TypeError` from `len`) instead of returning an empty table —
here for the documents `{"a": 1}`, `[1, 2]` and `5`. -/
theorem C8_counterexample :
    load_crn_ratios (CrnSrc.ok (JVal.jobj [("a", JVal.jnum 1)])) = none
    ∧ load_crn_ratios (CrnSrc.ok (JVal.jarr [JVal.jnum 1, JVal.jnum 2])) = none
    ∧ load_crn_ratios (CrnSrc.ok (JVal.jnum 5)) = none :=
  ⟨rfl, rfl, rfl⟩

/-- C8 (amended): a missing backing file yields an empty table for either
store, and a file the parser itself rejects (unparsable CSV; JSON that
`json.load` cannot decode) also yields an empty table — these paths never
raise.  For the ratio store only, a file that decodes to JSON of the wrong
shape (not a list of record objects with numeric ratio fields) raises out
of the stats block, which sits outside the `try`, instead of returning an
empty table; a file decoding to the empty list is served as the empty
table with zero stats.  A query over an empty source returns
`recordsTotal = 0`, `recordsFiltered = 0` and an empty page, with no
exception. -/
theorem C8_load_errors_amended (pn : String → Option Rat) :
    load_duplicates pn DupSrc.missing = ([], [], none)
    ∧ load_duplicates pn DupSrc.malformed = ([], [], none)
    ∧ load_crn_ratios CrnSrc.missing = some (JVal.jarr [], none)
    ∧ load_crn_ratios CrnSrc.undecodable = some (JVal.jarr [], none)
    ∧ load_crn_ratios (CrnSrc.ok (JVal.jarr []))
        = some (JVal.jarr [], some ⟨0, 0, 0, 0⟩)
    ∧ (∀ q : DupQ, api_duplicates q (load_duplicates pn DupSrc.missing).1 =
        ⟨q.draw, 0, 0, []⟩)
    ∧ (∀ qr : RQ, (api_crn_ratio qr []).1 = ⟨qr.draw, 0, 0, []⟩) :=
  ⟨rfl, rfl, rfl, rfl, rfl, fun q => api_duplicates_nil q,
   fun qr => (api_crn_ratio_nil qr).1⟩

/-- C10: every record in a duplicates response page carries no
underscore-prefixed key in its field map (the only underscore-prefixed data
are the `_group_id`, `_group_size` and `_row_num` components); it
corresponds to a cached record whose group annotations it copies, each
non-underscore field's value is the cached value with a falsy (empty or
missing) value replaced by "-", every truthy value returned unchanged, and
underscore-prefixed CSV keys are dropped. -/
theorem C10_response_fields (q : DupQ) (rows : List ARow) :
    ∀ o ∈ (api_duplicates q rows).data,
      (∀ kv ∈ o.fields, undKey kv.1 = false)
      ∧ ∃ a ∈ rows, o.group_id = a.gid ∧ o.group_size = a.gsize
          ∧ (∀ k, undKey k = false →
              getV o.fields k = (getV a.row k).map dashify)
          ∧ (∀ k, undKey k = true → getV o.fields k = none) := by
  intro o ho
  have hd : (api_duplicates q rows).data =
      (pySlice q.start (q.start + q.length) (dupFiltered q rows)).enum.map
        (fun p => dupOut q.start p.1 p.2) := rfl
  rw [hd] at ho
  rcases List.mem_map.mp ho with ⟨p, hp, rfl⟩
  have hpage : p.2 ∈ pySlice q.start (q.start + q.length)
      (dupFiltered q rows) := by
    have h2 : p.2 ∈ (pySlice q.start (q.start + q.length)
        (dupFiltered q rows)).enum.map Prod.snd := List.mem_map_of_mem _ hp
    rwa [List.enum_map_snd] at h2
  have hfil : p.2 ∈ dupFiltered q rows :=
    (pySlice_sublist _ _ _).mem hpage
  have hsub : (dupFiltered q rows).Sublist rows := by
    simp only [dupFiltered]
    split
    · exact List.filter_sublist _
    · exact List.Sublist.refl _
  have hrows : p.2 ∈ rows := hsub.mem hfil
  refine ⟨fields_not_und p.2 q.start p.1, p.2, hrows, rfl, rfl, ?_, ?_⟩
  · intro k hk
    exact getV_dash p.2.row k hk
  · intro k hk
    exact getV_dash_und p.2.row k hk

theorem C10_witness :
    getV ((api_duplicates qdE rowsE).data.get ⟨0, by decide⟩).fields "A"
      = some "-"
    ∧ getV ((api_duplicates qdE rowsE).data.get ⟨0, by decide⟩).fields "_x"
      = none := by
  have h := C10_response_fields qdE rowsE
    ((api_duplicates qdE rowsE).data.get ⟨0, by decide⟩) (List.get_mem _ _ _)
  obtain ⟨-, a, ha, -, -, hf, hund⟩ := h
  have ha1 : a = (⟨[("A", ""), ("_x", "s"), ("B", "b")], 4, 2⟩ : ARow) := by
    simpa [rowsE] using ha
  constructor
  · have h2 := hf "A" (by decide)
    rw [ha1] at h2
    rw [h2]
    decide
  · exact hund "_x" (by decide)

theorem C1_witness :
    2 ≤ ((load_ok pn0 wRows).1.filter
      (fun b => b.gid ==
        (⟨mkRow "A" "B" "2024-01-01" "INV-1", 0, 2⟩ : ARow).gid)).length :=
  ((C1_grouped_output pn0 wRows)
    ⟨mkRow "A" "B" "2024-01-01" "INV-1", 0, 2⟩ (by decide)).2.2

theorem C2_witness :
    qualKeys wRows = qualKeys wRowsP
    ∧ qualKeys wRows = [["A", "B", "2024-01-01", "INV-1"],
        ["Z", "B", "2024-01-01", "INV-1"]] :=
  ⟨(C2_group_enumeration pn0 wRows wRowsP (by decide)).2.2.2.1, by decide⟩

end App
